import Mathlib

/-!  Verification development for the email-intel scan engine.

Strings are modelled as lists of Unicode code points (`List Nat`), and the
relevant Python functions of `src/services/canonicalize.py`,
`src/services/extraction.py` and `src/app.py` are embedded as executable
Lean definitions below.  Timestamps are abstracted as `Nat`.
-/

namespace EmailIntel

/-- Code points of a string literal, for writing concrete inputs. -/
def str2c (s : String) : List Nat := s.toList.map Char.toNat

/-! ### Canonicalizer (src/services/canonicalize.py, canon_email) -/

/-- Whitespace recognised by Python `str.strip` (ASCII part): space and 9..13. -/
def isSpace (c : Nat) : Bool := decide (c = 32 ∨ (9 ≤ c ∧ c ≤ 13))

/-- Python `str.lower` on a single code point (ASCII range). -/
def lowerCode (c : Nat) : Nat := if 65 ≤ c ∧ c ≤ 90 then c + 32 else c

/-- Leading-whitespace removal (left half of Python `str.strip`). -/
def lstrip (l : List Nat) : List Nat := l.dropWhile isSpace

/-- Trailing-whitespace removal (right half of Python `str.strip`). -/
def rstrip : List Nat → List Nat
  | [] => []
  | a :: l =>
    let r := rstrip l
    if r = [] then (if isSpace a then [] else [a]) else a :: r

/-- Python `str.strip`. -/
def pyStrip (l : List Nat) : List Nat := rstrip (lstrip l)

/-- Python `str.lower`. -/
def pyLower (l : List Nat) : List Nat := l.map lowerCode

/-- `canon_email(e)`: `e.strip().lower()`, then one layer of enclosing
`<` (60) / `>` (62) removed when both are present. -/
def canon_email (e : List Nat) : List Nat :=
  let s := pyLower (pyStrip e)
  if s.head? = some 60 ∧ s.getLast? = some 62 then (s.drop 1).dropLast else s

/-! ### Extractor (src/services/extraction.py, EMAIL_RE / scan_file)

`EMAIL_RE = [A-Za-z0-9._%+-]+@[A-Za-z0-9.-]+\.[A-Za-z]{2,}`.  The matcher
below reproduces Python `finditer` semantics for this pattern: leftmost
match, greedy sub-matches with backtracking on the domain run. -/

/-- `[A-Za-z]`. -/
def isAlphaC (c : Nat) : Bool := decide ((65 ≤ c ∧ c ≤ 90) ∨ (97 ≤ c ∧ c ≤ 122))

/-- `[0-9]`. -/
def isDigitC (c : Nat) : Bool := decide (48 ≤ c ∧ c ≤ 57)

/-- Local-part class `[A-Za-z0-9._%+-]`: codes 46 `.`, 95 `_`, 37 `%`, 43 `+`, 45 `-`. -/
def isLocalC (c : Nat) : Bool :=
  isAlphaC c || isDigitC c || decide (c = 46 ∨ c = 95 ∨ c = 37 ∨ c = 43 ∨ c = 45)

/-- Domain class `[A-Za-z0-9.-]`. -/
def isDomC (c : Nat) : Bool := isAlphaC c || isDigitC c || decide (c = 46 ∨ c = 45)

/-- Greedy backtracking over the domain run `r`: find the largest domain
length `k ≤ n` with a `.` (46) at index `k` followed by at least two
letters.  Returns `(k, length of the greedy [A-Za-z]{2,} run)`. -/
def trySplit (r : List Nat) : Nat → Option (Nat × Nat)
  | 0 => none
  | d + 1 =>
    let l := ((r.drop (d + 2)).takeWhile isAlphaC).length
    if r[d + 1]? = some 46 ∧ 2 ≤ l then some (d + 1, l) else trySplit r d

/-- Attempt an `EMAIL_RE` match anchored at the start of `s`; returns the
matched token.  64 is `@`: the greedy local part must be non-empty and be
followed by `@`, and the greedy domain run after the `@` must split as
`D+ \. [A-Za-z]{2,}`. -/
def emailMatchAt (s : List Nat) : Option (List Nat) :=
  let loc := s.takeWhile isLocalC
  let rest := s.drop loc.length
  if loc = [] then none
  else if rest.head? = some 64 then
    let run := rest.tail.takeWhile isDomC
    (trySplit run run.length).map (fun kl => loc ++ 64 :: run.take (kl.1 + 1 + kl.2))
  else none

/-- Fuelled scan loop of `finditer`: try a match at each position, and
continue after the end of each non-overlapping match. -/
def findEmailsGo : Nat → List Nat → List (List Nat)
  | 0, _ => []
  | _ + 1, [] => []
  | fuel + 1, a :: t =>
    match emailMatchAt (a :: t) with
    | some m => m :: findEmailsGo fuel ((a :: t).drop m.length)
    | none => findEmailsGo fuel t

/-- All `EMAIL_RE` matches of a text, in order (Python `finditer`). -/
def findEmails (s : List Nat) : List (List Nat) := findEmailsGo s.length s

/-- `scan_file`, abstracted over the file content: both the ripgrep branch
and the in-process fallback yield the `EMAIL_RE` matches of the content. -/
def scan_file (content : List Nat) : List (List Nat) := findEmails content

/-- Full-match language of `EMAIL_RE` (64 is `@`, 46 is `.`). -/
def emailShape (s : List Nat) : Prop :=
  ∃ loc dom tld : List Nat,
    s = loc ++ 64 :: (dom ++ 46 :: tld) ∧
    loc ≠ [] ∧ (∀ c ∈ loc, isLocalC c = true) ∧
    dom ≠ [] ∧ (∀ c ∈ dom, isDomC c = true) ∧
    2 ≤ tld.length ∧ (∀ c ∈ tld, isAlphaC c = true)

/-! ### looks_like_text (src/services/extraction.py) -/

/-- Extension of a path, as Python `os.path.splitext`: the suffix of the
basename from its last `.` (46), unless every character before that dot is
itself a dot.  47 is `/`. -/
def extOf (p : List Nat) : List Nat :=
  let revb := p.reverse.takeWhile (fun c => c != 47)
  let tl := revb.takeWhile (fun c => c != 46)
  let rest := revb.drop (tl.length + 1)
  if tl.length < revb.length ∧ rest.any (fun c => c != 46) then 46 :: tl.reverse
  else []

/-- The binary-extension deny list of `looks_like_text`. -/
def BIN_EXTS : List (List Nat) :=
  [str2c (".png"), str2c (".jpg"), str2c (".jpeg"), str2c (".gif"),
   str2c (".bmp"), str2c (".pdf"), str2c (".zip"), str2c (".rar"),
   str2c (".7z"), str2c (".exe"), str2c (".dll"), str2c (".so")]

/-- `looks_like_text(path)`: lowercased extension not in the deny list. -/
def looks_like_text (p : List Nat) : Bool :=
  !(BIN_EXTS.contains ((extOf p).map lowerCode))

/-! ### Registry store (emails table) and _flush_emails (src/app.py) -/

/-- One row of the `emails` table. -/
structure EmailRow where
  email : List Nat
  first_seen_ts : Nat
  last_seen_ts : Nat
  seen_count : Nat
deriving DecidableEq, Repr

/-- The SQLite UPSERT of `_flush_emails`, for a single token: insert with
`seen_count = 1`, or on conflict update `last_seen_ts` and increment
`seen_count`. -/
def upsertOne (now : Nat) : List EmailRow → List Nat → List EmailRow
  | [], e => [⟨e, now, now, 1⟩]
  | r :: rs, e =>
    if r.email = e then ⟨r.email, r.first_seen_ts, now, r.seen_count + 1⟩ :: rs
    else r :: upsertOne now rs e

/-- Registry seen-count of token `t` (0 when absent). -/
def countOf (reg : List EmailRow) (t : List Nat) : Nat :=
  ((reg.filter (fun r => decide (r.email = t))).map (fun r => r.seen_count)).sum

/-- `_flush_emails(db, job, emails)` acting on `(registry, job.emails_found)`:
no-op on an empty batch, otherwise upsert every token and refresh
`emails_found` from `SELECT COUNT(*) FROM emails`. -/
def flush_emails (now : Nat) (reg : List EmailRow) (ef : Nat)
    (emails : List (List Nat)) : List EmailRow × Nat :=
  if emails = [] then (reg, ef)
  else
    let reg2 := emails.foldl (upsertOne now) reg
    (reg2, reg2.length)

/-- A sequence of flushes. -/
def flushMany (now : Nat) (reg : List EmailRow) (ef : Nat)
    (bs : List (List (List Nat))) : List EmailRow × Nat :=
  bs.foldl (fun p b => flush_emails now p.1 p.2 b) (reg, ef)

/-! ### Worker (src/app.py, worker_run) -/

/-- The worker state threaded through the token loop: registry view,
`job.emails_found`, and the in-memory `emails_batch`. -/
structure CState where
  reg : List EmailRow
  ef : Nat
  batch : List (List Nat)
deriving DecidableEq, Repr

/-- `set.add`: the batch is a Python set, duplicates collapse. -/
def insertSet (b : List (List Nat)) (x : List Nat) : List (List Nat) :=
  if x ∈ b then b else b ++ [x]

/-- `batch_size = 2000`. -/
def batch_size : Nat := 2000

/-- Body of `for email in scan_file(path)`: add the canonical token to the
batch set and flush once the batch reaches `batch_size`. -/
def feedToken (now : Nat) (c : CState) (tok : List Nat) : CState :=
  let b := insertSet c.batch (canon_email tok)
  if batch_size ≤ b.length then
    let fr := flush_emails now c.reg c.ef b
    ⟨fr.1, fr.2, []⟩
  else ⟨c.reg, c.ef, b⟩

/-- The final flush: `if emails_batch: _flush_emails(...)`. -/
def finishFlush (now : Nat) (c : CState) : CState :=
  if c.batch = [] then c
  else
    let fr := flush_emails now c.reg c.ef c.batch
    ⟨fr.1, fr.2, []⟩

/-- The whole token pipeline: feed a stream of raw tokens through the
batching loop and run the final flush. -/
def processTokens (now : Nat) (reg0 : List EmailRow) (ef0 : Nat)
    (toks : List (List Nat)) : CState :=
  finishFlush now (toks.foldl (feedToken now) ⟨reg0, ef0, []⟩)

/-- One enumerated file: path, size, and content (`scan_file` is applied to
the content when the file looks like text). -/
structure FileRec where
  path : List Nat
  size : Nat
  content : List Nat
deriving Repr

/-- One iteration of the file loop, after the control checks passed:
skip non-text files, otherwise scan; either way `processed_bytes += fsize`. -/
def stepFile (now : Nat) (s : CState × Nat) (f : FileRec) : CState × Nat :=
  if looks_like_text f.path then
    ((scan_file f.content).foldl (feedToken now) s.1, s.2 + f.size)
  else (s.1, s.2 + f.size)

/-- Outcome of the per-file control check (`job = db.get(...)`, pause wait):
proceed, observe `cancelled`, or observe the record gone. -/
inductive Ctl
  | proceed
  | cancelled
  | gone
deriving DecidableEq, Repr

/-- The file loop of `worker_run` with a schedule of control observations;
a missing schedule entry means no interference.  Stops at the first
non-`proceed` observation (`break`). -/
def workerGo (now : Nat) : List Ctl → List FileRec → CState × Nat →
    (CState × Nat) × Option Ctl
  | _, [], s => (s, none)
  | ctl, f :: fs, s =>
    match ctl.headD Ctl.proceed with
    | Ctl.proceed => workerGo now ctl.tail fs (stepFile now s f)
    | Ctl.cancelled => (s, some Ctl.cancelled)
    | Ctl.gone => (s, some Ctl.gone)

/-- `worker_run` after start-up: run the file loop, then the final flush.
The final flush runs even after a `break`; only when the record is gone
does `_flush_emails` raise (`job` is `None`) before `db.commit`, so that
write is rolled back when the session closes and the registry is
unchanged. -/
def workerRun (now : Nat) (ctl : List Ctl) (files : List FileRec)
    (reg0 : List EmailRow) (ef0 : Nat) : (CState × Nat) × Option Ctl :=
  let r := workerGo now ctl files (⟨reg0, ef0, []⟩, 0)
  if r.2 = some Ctl.gone then r
  else ((finishFlush now r.1.1, r.1.2), r.2)

/-- The raw tokens a completed job feeds to the batching loop: the scan
results of exactly the files that pass `looks_like_text`. -/
def jobTokens (files : List FileRec) : List (List Nat) :=
  (files.filter (fun f => looks_like_text f.path)).flatMap (fun f => scan_file f.content)

/-! ### Job record and control commands (src/app.py) -/

/-- Stored job status strings. -/
inductive St
  | queued
  | running
  | done
  | cancelled
  | failed
deriving DecidableEq, Repr

/-- The control-relevant fields of a `jobs` row. -/
structure JobRec where
  status : St
  paused : Bool
  cancelled : Bool
deriving DecidableEq, Repr

/-- Terminal statuses. -/
def terminalSt (s : St) : Prop := s = St.done ∨ s = St.cancelled ∨ s = St.failed

/-- Response of a control endpoint.  The code always returns `{"ok": True}`;
`notFound` exists to state what the spec expects. -/
inductive ApiResp
  | ok
  | notFound
deriving DecidableEq, Repr

/-- `pause_job`: `UPDATE jobs SET paused=1 WHERE id=...`; returns ok. -/
def pause_job (db : Option JobRec) : Option JobRec × ApiResp :=
  (db.map (fun j => { j with paused := true }), ApiResp.ok)

/-- `resume_job`: `UPDATE jobs SET paused=0, status='running' WHERE id=...`. -/
def resume_job (db : Option JobRec) : Option JobRec × ApiResp :=
  (db.map (fun j => { j with paused := false, status := St.running }), ApiResp.ok)

/-- `cancel_job`: `UPDATE jobs SET cancelled=1, status='cancelled' WHERE id=...`. -/
def cancel_job (db : Option JobRec) : Option JobRec × ApiResp :=
  (db.map (fun j => { j with cancelled := true, status := St.cancelled }), ApiResp.ok)

/-- `delete_job`: delete the row if present; returns ok either way. -/
def delete_job (_db : Option JobRec) : Option JobRec × ApiResp :=
  (none, ApiResp.ok)

/-! ### create_job workers clamp (src/app.py line 141) -/

/-- `workers=max(1, min(int(workers or 8), 64))`: note `0 or 8` is `8`. -/
def clampWorkers (w : Int) : Int :=
  max 1 (min (if w = 0 then 8 else w) 64)

/-! ### Concrete inputs used by the claim theorems -/

/-- Scenario A content. -/
def contentA : List Nat :=
  str2c ("Contact: John.Doe@Example.COM and <jane@sub.example.org>")

def johnTok : List Nat := str2c ("john.doe@example.com")

def janeTok : List Nat := str2c ("jane@sub.example.org")

/-- A small already-canonical token. -/
def tokA : List Nat := str2c ("a@b.cc")

/-- Scenario C: a binary file that nevertheless contains an email-shaped
token, to show skipped files contribute bytes but no tokens. -/
def pngFile : FileRec := ⟨str2c ("/data/cat.png"), 5, str2c ("img bob@x.com bytes")⟩

/-- Scenario C: a text file with one email. -/
def txtFile : FileRec := ⟨str2c ("/data/note.txt"), 7, str2c ("mail a@b.cc end")⟩

/-! ## Helper lemmas -/

theorem countOf_cons (r : EmailRow) (rs : List EmailRow) (t : List Nat) :
    countOf (r :: rs) t = (if r.email = t then r.seen_count else 0) + countOf rs t := by
  by_cases h : r.email = t <;> simp [countOf, List.filter_cons, h]

theorem countOf_upsertOne (now : Nat) (reg : List EmailRow) (e t : List Nat) :
    countOf (upsertOne now reg e) t = countOf reg t + (if t = e then 1 else 0) := by
  induction reg with
  | nil =>
    by_cases h : t = e
    · subst h; simp [upsertOne, countOf_cons, countOf]
    · have h2 : ¬(e = t) := fun he => h he.symm
      simp [upsertOne, countOf_cons, countOf, h, h2]
  | cons r rs ih =>
    by_cases hre : r.email = e
    · simp only [upsertOne, hre, if_true]
      rw [countOf_cons, countOf_cons]
      by_cases ht : r.email = t
      · have : t = e := by rw [← ht, hre]
        simp [ht, this]
        omega
      · have hte : ¬(t = e) := by
          intro he; exact ht (by rw [hre, he])
        have het : ¬(e = t) := fun he => hte he.symm
        simp [ht, hte, het]
    · simp only [upsertOne, hre, if_false]
      rw [countOf_cons, countOf_cons, ih]
      omega

theorem countOf_foldl_upsert (now : Nat) (b : List (List Nat)) :
    ∀ (reg : List EmailRow) (t : List Nat), b.Nodup →
      countOf (b.foldl (upsertOne now) reg) t =
        countOf reg t + (if t ∈ b then 1 else 0) := by
  induction b with
  | nil => intro reg t _; simp
  | cons e b ih =>
    intro reg t hnd
    rcases List.nodup_cons.mp hnd with ⟨he, hb⟩
    simp only [List.foldl_cons]
    rw [ih _ _ hb, countOf_upsertOne]
    by_cases hte : t = e
    · subst hte; simp [he]
    · simp [hte, List.mem_cons]

theorem countOf_flush (now : Nat) (reg : List EmailRow) (ef : Nat)
    (b : List (List Nat)) (t : List Nat) (hb : b.Nodup) :
    countOf (flush_emails now reg ef b).1 t =
      countOf reg t + (if t ∈ b then 1 else 0) := by
  by_cases h : b = []
  · subst h; simp [flush_emails]
  · simp only [flush_emails, h, if_false]
    exact countOf_foldl_upsert now b reg t hb

theorem lowerCode_idem (c : Nat) : lowerCode (lowerCode c) = lowerCode c := by
  simp only [lowerCode]
  split_ifs <;> omega

theorem isSpace_lowerCode (c : Nat) : isSpace (lowerCode c) = isSpace c := by
  unfold isSpace lowerCode
  split_ifs with h
  · rw [decide_eq_decide]; omega
  · rfl

theorem lstrip_pyLower (l : List Nat) : lstrip (pyLower l) = pyLower (lstrip l) := by
  induction l with
  | nil => rfl
  | cons a l ih =>
    by_cases h : isSpace a
    · simpa [pyLower, lstrip, List.dropWhile_cons, isSpace_lowerCode, h] using ih
    · simp [pyLower, lstrip, List.dropWhile_cons, isSpace_lowerCode, h]

theorem rstrip_cons (a : Nat) (l : List Nat) :
    rstrip (a :: l) =
      if rstrip l = [] then (if isSpace a then [] else [a]) else a :: rstrip l := rfl

theorem rstrip_pyLower (l : List Nat) : rstrip (pyLower l) = pyLower (rstrip l) := by
  induction l with
  | nil => rfl
  | cons a l ih =>
    simp only [pyLower, List.map_cons] at ih ⊢
    rw [rstrip_cons, rstrip_cons, ih]
    by_cases h : rstrip l = []
    · by_cases hs : isSpace a <;> simp [h, hs, isSpace_lowerCode]
    · have h2 : List.map lowerCode (rstrip l) ≠ [] := by
        simpa [List.map_eq_nil_iff] using h
      simp [h, h2]

theorem lstrip_eq_self (l : List Nat)
    (h : ∀ a, l.head? = some a → isSpace a = false) : lstrip l = l := by
  cases l with
  | nil => rfl
  | cons a l => simp [lstrip, List.dropWhile_cons, h a rfl]

theorem head_lstrip_false (l : List Nat) :
    ∀ a, (lstrip l).head? = some a → isSpace a = false := by
  induction l with
  | nil => intro a h; simp [lstrip] at h
  | cons b l ih =>
    intro a h
    by_cases hb : isSpace b
    · exact ih a (by simpa [lstrip, List.dropWhile_cons, hb] using h)
    · have : b = a := by simpa [lstrip, List.dropWhile_cons, hb] using h
      subst this
      simpa using hb

theorem lstrip_idem (l : List Nat) : lstrip (lstrip l) = lstrip l :=
  lstrip_eq_self _ (head_lstrip_false l)

theorem rstrip_idem (l : List Nat) : rstrip (rstrip l) = rstrip l := by
  induction l with
  | nil => rfl
  | cons a l ih =>
    rw [rstrip_cons]
    by_cases h : rstrip l = []
    · rw [if_pos h]
      by_cases hs : isSpace a
      · rw [if_pos hs]; rfl
      · rw [if_neg hs, rstrip_cons]
        simp [hs, rstrip]
    · rw [if_neg h, rstrip_cons, ih, if_neg h]

theorem rstrip_head (l : List Nat) : rstrip l = [] ∨ (rstrip l).head? = l.head? := by
  cases l with
  | nil => left; rfl
  | cons a l =>
    by_cases h : rstrip l = []
    · by_cases hs : isSpace a
      · left; simp [rstrip, h, hs]
      · right; simp [rstrip, h, hs]
    · right; simp [rstrip, h]

theorem rstrip_of_last (l : List Nat)
    (h : ∀ a, l.getLast? = some a → isSpace a = false) : rstrip l = l := by
  induction l with
  | nil => rfl
  | cons a l ih =>
    cases l with
    | nil => simp [rstrip, h a rfl]
    | cons b t =>
      have h2 : ∀ x, (b :: t).getLast? = some x → isSpace x = false := by
        intro x hx
        exact h x (by simpa [List.getLast?_cons_cons] using hx)
      have h3 := ih h2
      rw [rstrip_cons, h3]
      simp

theorem pyStrip_pyLower (l : List Nat) : pyStrip (pyLower l) = pyLower (pyStrip l) := by
  simp [pyStrip, lstrip_pyLower, rstrip_pyLower]

theorem pyStrip_idem (l : List Nat) : pyStrip (pyStrip l) = pyStrip l := by
  unfold pyStrip
  rcases rstrip_head (lstrip l) with h | h
  · rw [h]; rfl
  · have hh : ∀ a, (rstrip (lstrip l)).head? = some a → isSpace a = false := by
      intro a ha
      rw [h] at ha
      exact head_lstrip_false l a ha
    rw [lstrip_eq_self _ hh, rstrip_idem]

theorem pyLower_idem (l : List Nat) : pyLower (pyLower l) = pyLower l := by
  simp [pyLower, List.map_map, Function.comp_def, lowerCode_idem]

/-! ## Claim theorems -/

/-- Claim C1, counterexample: observing the same token twice in one job
(single batch) increases `seen_count` by 1, not 2 — the in-memory batch is
a set, so duplicates within a batch collapse before the upsert. -/
theorem claim1_counterexample :
    countOf (processTokens 0 [] 0 [tokA, tokA]).reg tokA = 1 ∧
    countOf (processTokens 0 [] 0 [tokA, tokA]).reg tokA ≠ 2 := by decide

/-- Claim C1, amended: `seen_count` of a token grows by exactly the number
of flushed (deduplicated) batches that contain it; N observations within a
single batch collapse to one increment. -/
theorem claim1_theorem (now : Nat) (reg : List EmailRow) (ef : Nat)
    (bs : List (List (List Nat))) (t : List Nat)
    (h : ∀ b ∈ bs, b.Nodup) :
    countOf (flushMany now reg ef bs).1 t =
      countOf reg t + bs.countP (fun b => decide (t ∈ b)) := by
  induction bs generalizing reg ef with
  | nil => simp [flushMany]
  | cons b bs ih =>
    have hb : b.Nodup := h b (by simp)
    have hbs : ∀ x ∈ bs, x.Nodup := fun x hx => h x (by simp [hx])
    simp only [flushMany, List.foldl_cons]
    have hstep :
        bs.foldl (fun p x => flush_emails now p.1 p.2 x)
          (flush_emails now reg ef b) =
          flushMany now (flush_emails now reg ef b).1
            (flush_emails now reg ef b).2 bs := rfl
    rw [hstep, ih _ _ hbs, countOf_flush now reg ef b t hb, List.countP_cons]
    by_cases ht : t ∈ b <;> simp [ht] <;> omega

/-- Witness for the amended C1: two singleton batches of the same token
increase its count by exactly 2. -/
theorem claim1_witness :
    (∀ b ∈ [[tokA], [tokA]], List.Nodup b) ∧
    countOf (flushMany 0 [] 0 [[tokA], [tokA]]).1 tokA =
      countOf [] tokA + ([[tokA], [tokA]].countP (fun b => decide (tokA ∈ b))) :=
  ⟨by decide, claim1_theorem 0 [] 0 [[tokA], [tokA]] tokA (by decide)⟩

/-- Claim C2, counterexample: `canon_email` is not idempotent — on
`"<<a>>"` one application yields `"<a>"` and a second yields `"a"`. -/
theorem claim2_counterexample :
    canon_email (canon_email (str2c ("<<a>>"))) ≠ canon_email (str2c ("<<a>>")) := by
  decide

/-- Claim C2, amended: canonicalization is idempotent on every string whose
trimmed, lowercased form does not both start with `<` and end with `>`,
i.e. whenever the angle-bracket stripping branch does not fire. -/
theorem claim2_theorem (e : List Nat)
    (h : ¬((pyLower (pyStrip e)).head? = some 60 ∧
           (pyLower (pyStrip e)).getLast? = some 62)) :
    canon_email (canon_email e) = canon_email e := by
  have h1 : canon_email e = pyLower (pyStrip e) := by
    simp only [canon_email]
    simp [h]
  rw [h1]
  have h2 : pyLower (pyStrip (pyLower (pyStrip e))) = pyLower (pyStrip e) := by
    calc pyLower (pyStrip (pyLower (pyStrip e)))
        = pyLower (pyLower (pyStrip (pyStrip e))) := by rw [pyStrip_pyLower]
      _ = pyLower (pyLower (pyStrip e)) := by rw [pyStrip_idem]
      _ = pyLower (pyStrip e) := pyLower_idem _
  simp only [canon_email, h2]
  simp [h]

/-- Witness for the amended C2 at `" A@B.Com "`. -/
theorem claim2_witness :
    (¬((pyLower (pyStrip (str2c (" A@B.Com ")))).head? = some 60 ∧
       (pyLower (pyStrip (str2c (" A@B.Com ")))).getLast? = some 62)) ∧
    canon_email (canon_email (str2c (" A@B.Com "))) =
      canon_email (str2c (" A@B.Com ")) :=
  ⟨by decide, claim2_theorem _ (by decide)⟩

/-- Claim C3, counterexample: resuming a job whose status is the terminal
`done` unconditionally rewrites the status to `running`. -/
theorem claim3_counterexample :
    (resume_job (some ⟨St.done, false, false⟩)).1 =
      some ⟨St.running, false, false⟩ ∧ St.running ≠ St.done := by decide

/-- Claim C3, amended: a terminal status is preserved by pause (and delete
removes the record), but resume rewrites it to `running` and cancel to
`cancelled`, even from a terminal state. -/
theorem claim3_theorem (j : JobRec) (_h : terminalSt j.status) :
    ((pause_job (some j)).1.map JobRec.status) = some j.status ∧
    (delete_job (some j)).1 = none ∧
    ((resume_job (some j)).1.map JobRec.status) = some St.running ∧
    ((cancel_job (some j)).1.map JobRec.status) = some St.cancelled := by
  simp [pause_job, delete_job, resume_job, cancel_job]

/-- Witness for the amended C3 on a `done` job. -/
theorem claim3_witness :
    terminalSt St.done ∧
    (((pause_job (some ⟨St.done, false, false⟩)).1.map JobRec.status) =
        some St.done ∧
      (delete_job (some ⟨St.done, false, false⟩)).1 = none ∧
      ((resume_job (some ⟨St.done, false, false⟩)).1.map JobRec.status) =
        some St.running ∧
      ((cancel_job (some ⟨St.done, false, false⟩)).1.map JobRec.status) =
        some St.cancelled) :=
  ⟨by simp [terminalSt], claim3_theorem ⟨St.done, false, false⟩ (by simp [terminalSt])⟩

/-- Claim C5, counterexample: on an unknown job id every control command
answers `{"ok": True}` — no not-found condition is surfaced. -/
theorem claim5_counterexample :
    (pause_job none).2 = ApiResp.ok ∧ (resume_job none).2 = ApiResp.ok ∧
    (cancel_job none).2 = ApiResp.ok ∧ (delete_job none).2 = ApiResp.ok ∧
    ApiResp.ok ≠ ApiResp.notFound := by decide

/-- Claim C5, amended: on an unknown job id each control command changes no
state and reports plain success (`ok`), not a not-found condition. -/
theorem claim5_theorem :
    pause_job none = (none, ApiResp.ok) ∧
    resume_job none = (none, ApiResp.ok) ∧
    cancel_job none = (none, ApiResp.ok) ∧
    delete_job none = (none, ApiResp.ok) := by decide

/-- Claim C9: flushing an empty batch leaves both the registry and the
job's `emails_found` untouched. -/
theorem claim9_theorem (now : Nat) (reg : List EmailRow) (ef : Nat) :
    flush_emails now reg ef [] = (reg, ef) := rfl

/-- Claim C10, counterexample: a submitted `workers` of 0 is falsy in
`workers or 8`, so the stored value is 8, not `max(1, min(0, 64)) = 1`. -/
theorem claim10_counterexample :
    clampWorkers 0 = 8 ∧ max 1 (min (0 : Int) 64) = 1 ∧ (8 : Int) ≠ 1 := by decide

/-- Claim C10, amended: for every nonzero submitted integer the stored
value is `max(1, min(w, 64))` — clamped, never rejected; a submitted 0
falls back to the default 8. -/
theorem claim10_theorem (w : Int) (h : w ≠ 0) :
    clampWorkers w = max 1 (min w 64) := by
  simp [clampWorkers, h]

/-- Witness for the amended C10 at `w = 70`. -/
theorem claim10_witness :
    (70 : Int) ≠ 0 ∧ clampWorkers 70 = max 1 (min 70 64) :=
  ⟨by decide, claim10_theorem 70 (by decide)⟩

/-! ## Worker-run lemmas (claims C4 and C7) -/

theorem workerGo_nil (now : Nat) (files : List FileRec) :
    ∀ s, workerGo now [] files s = (files.foldl (stepFile now) s, none) := by
  induction files with
  | nil => intro s; rfl
  | cons f fs ih =>
    intro s
    simpa [workerGo] using ih (stepFile now s f)

theorem jobTokens_cons (f : FileRec) (fs : List FileRec) :
    jobTokens (f :: fs) =
      if looks_like_text f.path then scan_file f.content ++ jobTokens fs
      else jobTokens fs := by
  by_cases h : looks_like_text f.path <;> simp [jobTokens, List.filter_cons, h]

theorem foldl_stepFile (now : Nat) (files : List FileRec) :
    ∀ (c : CState) (p : Nat),
      files.foldl (stepFile now) (c, p) =
        ((jobTokens files).foldl (feedToken now) c,
          p + (files.map (fun f => f.size)).sum) := by
  induction files with
  | nil => intro c p; simp [jobTokens]
  | cons f fs ih =>
    intro c p
    rw [List.foldl_cons, jobTokens_cons]
    by_cases h : looks_like_text f.path
    · rw [if_pos h]
      simp only [stepFile, h, if_true]
      rw [ih, List.foldl_append]
      simp [Nat.add_assoc]
    · rw [if_neg h]
      simp only [stepFile, h, if_false]
      rw [ih]
      simp [Nat.add_assoc]

/-- Claim C4 (code bug): after the engine observes `cancelled` and breaks
out of the file loop, the unconditional final flush still upserts the
half-built in-memory batch, so the registry does contain the token that
was accumulated before the cancellation. -/
theorem claim4_theorem :
    (workerRun 0 [Ctl.proceed, Ctl.cancelled] [txtFile, pngFile] [] 0).2 =
      some Ctl.cancelled ∧
    (workerRun 0 [Ctl.proceed, Ctl.cancelled] [txtFile, pngFile] [] 0).1.2 =
      txtFile.size ∧
    countOf (workerRun 0 [Ctl.proceed, Ctl.cancelled] [txtFile, pngFile] [] 0).1.1.reg
      tokA = 1 := by decide

/-- Claim C7: with no controller interference, every enumerated file's
size is added to `processed_bytes` whether or not it passes
`looks_like_text`, while the registry effect comes from exactly the files
that do pass.  The final conjunct is the png+txt scenario: both sizes
count, only the txt token is registered. -/
theorem claim7_theorem (now : Nat) (files : List FileRec)
    (reg0 : List EmailRow) (ef0 : Nat) :
    ((workerRun now [] files reg0 ef0).1.2 =
      (files.map (fun f => f.size)).sum) ∧
    ((workerRun now [] files reg0 ef0).1.1 =
      processTokens now reg0 ef0 (jobTokens files)) ∧
    ((workerRun 0 [] [pngFile, txtFile] [] 0).1.2 =
        pngFile.size + txtFile.size ∧
      countOf (workerRun 0 [] [pngFile, txtFile] [] 0).1.1.reg tokA = 1 ∧
      countOf (workerRun 0 [] [pngFile, txtFile] [] 0).1.1.reg
        (str2c ("bob@x.com")) = 0 ∧
      (workerRun 0 [] [pngFile, txtFile] [] 0).1.1.reg.length = 1) := by
  refine ⟨?_, ?_, by decide⟩
  · simp only [workerRun, workerGo_nil, foldl_stepFile]
    simp
  · simp only [workerRun, workerGo_nil, foldl_stepFile]
    simp [processTokens]

/-! ## Extractor lemmas (claims C6 and C8) -/

theorem mem_takeWhile_p (p : Nat → Bool) (l : List Nat) :
    ∀ a ∈ l.takeWhile p, p a = true := by
  induction l with
  | nil => simp
  | cons b l ih =>
    intro a ha
    rw [List.takeWhile_cons] at ha
    by_cases hb : p b
    · rw [if_pos hb] at ha
      rcases List.mem_cons.mp ha with h | h
      · subst h; exact hb
      · exact ih a h
    · rw [if_neg hb] at ha
      simp at ha

theorem takeWhile_take_len (p : Nat → Bool) (l : List Nat) :
    l.take (l.takeWhile p).length = l.takeWhile p := by
  induction l with
  | nil => rfl
  | cons b l ih =>
    rw [List.takeWhile_cons]
    by_cases hb : p b
    · rw [if_pos hb]
      simp [List.take_succ_cons, ih]
    · rw [if_neg hb]
      rfl

theorem drop_at (l : List Nat) :
    ∀ (k a : Nat), l[k]? = some a → l.drop k = a :: l.drop (k + 1) := by
  induction l with
  | nil => intro k a h; simp at h
  | cons b l ih =>
    intro k a h
    cases k with
    | zero =>
      simp at h
      subst h
      rfl
    | succ k =>
      simp at h
      simpa using ih k a h

theorem getLast?_append_right (l1 l2 : List Nat) (h : l2 ≠ []) :
    (l1 ++ l2).getLast? = l2.getLast? := by
  induction l1 with
  | nil => rfl
  | cons a l1 ih =>
    have h2 : l1 ++ l2 ≠ [] := by simp [h]
    cases hx : l1 ++ l2 with
    | nil => exact absurd hx h2
    | cons b xs =>
      rw [List.cons_append, hx, List.getLast?_cons_cons, ← hx, ih]

theorem getLast?_mem_own (l : List Nat) :
    ∀ a, l.getLast? = some a → a ∈ l := by
  induction l with
  | nil => intro a h; simp at h
  | cons b l ih =>
    intro a h
    cases l with
    | nil =>
      simp at h
      subst h
      simp
    | cons c t =>
      rw [List.getLast?_cons_cons] at h
      exact List.mem_cons_of_mem b (ih a h)

theorem getLast?_some_of_ne (l : List Nat) (h : l ≠ []) :
    ∃ a, l.getLast? = some a := by
  induction l with
  | nil => exact absurd rfl h
  | cons b l ih =>
    cases l with
    | nil => exact ⟨b, rfl⟩
    | cons c t =>
      obtain ⟨a, ha⟩ := ih (by simp)
      exact ⟨a, by rw [List.getLast?_cons_cons, ha]⟩

theorem head?_map_own (f : Nat → Nat) (l : List Nat) :
    (l.map f).head? = l.head?.map f := by
  cases l <;> rfl

theorem isLocal_not_space (c : Nat) (h : isLocalC c = true) : isSpace c = false := by
  simp only [isLocalC, isAlphaC, isDigitC, Bool.or_eq_true, decide_eq_true_eq] at h
  simp only [isSpace, decide_eq_false_iff_not]
  omega

theorem isAlpha_not_space (c : Nat) (h : isAlphaC c = true) : isSpace c = false := by
  simp only [isAlphaC, decide_eq_true_eq] at h
  simp only [isSpace, decide_eq_false_iff_not]
  omega

theorem lowerCode_ne_of_local (c : Nat) (h : isLocalC c = true) :
    lowerCode c ≠ 60 := by
  simp only [isLocalC, isAlphaC, isDigitC, Bool.or_eq_true, decide_eq_true_eq] at h
  simp only [lowerCode]
  split_ifs <;> omega

theorem lowerCode_not_upper (c : Nat) : ¬(65 ≤ lowerCode c ∧ lowerCode c ≤ 90) := by
  simp only [lowerCode]
  split_ifs <;> omega

theorem trySplit_sound (r : List Nat) :
    ∀ n k l, trySplit r n = some (k, l) →
      1 ≤ k ∧ r[k]? = some 46 ∧
      l = ((r.drop (k + 1)).takeWhile isAlphaC).length ∧ 2 ≤ l := by
  intro n
  induction n with
  | zero => intro k l h; simp [trySplit] at h
  | succ d ih =>
    intro k l h
    rw [trySplit] at h
    by_cases hc : r[d + 1]? = some 46 ∧
        2 ≤ ((r.drop (d + 2)).takeWhile isAlphaC).length
    · rw [if_pos hc] at h
      simp only [Option.some.injEq, Prod.mk.injEq] at h
      obtain ⟨hk, hl⟩ := h
      subst hk
      subst hl
      exact ⟨by omega, hc.1, rfl, hc.2⟩
    · rw [if_neg hc] at h
      exact ih k l h

theorem emailMatchAt_shape (s m : List Nat) (h : emailMatchAt s = some m) :
    emailShape m := by
  simp only [emailMatchAt] at h
  set L := s.takeWhile isLocalC with hL
  set R := (s.drop L.length).tail.takeWhile isDomC with hR
  by_cases hl : L = []
  · rw [if_pos hl] at h
    simp at h
  · rw [if_neg hl] at h
    by_cases hh : (s.drop L.length).head? = some 64
    · rw [if_pos hh] at h
      cases ht : trySplit R R.length with
      | none => rw [ht] at h; simp at h
      | some kl =>
        obtain ⟨k, l⟩ := kl
        rw [ht, Option.map_some'] at h
        simp only [Option.some.injEq] at h
        obtain ⟨hk1, hk46, hl_eq, hl2⟩ := trySplit_sound R R.length k l ht
        have hdk := drop_at R k 46 hk46
        have hklt : k < R.length := by
          by_contra hge
          rw [List.drop_eq_nil_of_le (by omega)] at hdk
          exact (List.cons_ne_nil _ _) hdk.symm
        have htake : R.take (k + 1 + l) = R.take k ++ 46 :: (R.drop (k + 1)).take l := by
          rw [show k + 1 + l = k + (l + 1) from by omega, List.take_add, hdk,
            List.take_succ_cons]
        have htld : (R.drop (k + 1)).take l = (R.drop (k + 1)).takeWhile isAlphaC := by
          rw [hl_eq]
          exact takeWhile_take_len _ _
        refine ⟨L, R.take k, (R.drop (k + 1)).takeWhile isAlphaC,
          ?_, hl, ?_, ?_, ?_, ?_, ?_⟩
        · rw [← h, htake, htld]
        · intro x hx
          exact mem_takeWhile_p isLocalC s x (hL ▸ hx)
        · intro hx
          have hlen : (R.take k).length = k := by
            rw [List.length_take]
            omega
          rw [hx] at hlen
          simp at hlen
          omega
        · intro x hx
          have hx2 : x ∈ R := List.take_subset _ _ hx
          exact mem_takeWhile_p isDomC _ x (hR ▸ hx2)
        · rw [← hl_eq]
          exact hl2
        · exact fun x hx => mem_takeWhile_p isAlphaC _ x hx
    · rw [if_neg hh] at h
      simp at h

theorem findEmailsGo_shape :
    ∀ fuel s m, m ∈ findEmailsGo fuel s → emailShape m := by
  intro fuel
  induction fuel with
  | zero => intro s m h; simp [findEmailsGo] at h
  | succ fuel ih =>
    intro s m h
    cases s with
    | nil => simp [findEmailsGo] at h
    | cons a t =>
      rw [findEmailsGo] at h
      cases he : emailMatchAt (a :: t) with
      | some m0 =>
        rw [he] at h
        rcases List.mem_cons.mp h with h1 | h1
        · subst h1
          exact emailMatchAt_shape _ _ he
        · exact ih _ _ h1
      | none =>
        rw [he] at h
        exact ih _ _ h

/-- Claim C6: scanning the Scenario A content and canonicalizing every
extracted match yields exactly `john.doe@example.com` and
`jane@sub.example.org`, each registered with `seen_count = 1`. -/
theorem claim6_theorem :
    (scan_file contentA).map canon_email = [johnTok, janeTok] ∧
    countOf (processTokens 0 [] 0 (scan_file contentA)).reg johnTok = 1 ∧
    countOf (processTokens 0 [] 0 (scan_file contentA)).reg janeTok = 1 ∧
    (processTokens 0 [] 0 (scan_file contentA)).reg.length = 2 := by decide

/-- Claim C8: every string produced by the extractor's `EMAIL_RE` matcher
canonicalizes to its plain lowercasing (no whitespace to trim, no angle
brackets to strip), and is a non-empty string whose canonical form
contains no uppercase ASCII letter. -/
theorem claim8_theorem (content m : List Nat) (h : m ∈ findEmails content) :
    canon_email m = pyLower m ∧ m ≠ [] ∧
    ∀ c ∈ canon_email m, ¬(65 ≤ c ∧ c ≤ 90) := by
  have hs := findEmailsGo_shape content.length content m h
  obtain ⟨loc, dom, tld, hm, hlne, hlc, -, -, htl2, hta⟩ := hs
  obtain ⟨a, loc2, hLoc⟩ : ∃ a loc2, loc = a :: loc2 := by
    cases loc with
    | nil => exact absurd rfl hlne
    | cons a t => exact ⟨a, t, rfl⟩
  have hhead : m.head? = some a := by rw [hm, hLoc]; rfl
  have ha_loc : isLocalC a = true := hlc a (by rw [hLoc]; simp)
  have htld_ne : tld ≠ [] := by
    intro hx
    rw [hx] at htl2
    simp at htl2
  obtain ⟨z, hz⟩ := getLast?_some_of_ne tld htld_ne
  have hz_alpha : isAlphaC z = true := hta z (getLast?_mem_own tld z hz)
  have hm2 : m = (loc ++ 64 :: dom ++ [46]) ++ tld := by rw [hm]; simp
  have hlast : m.getLast? = some z := by
    rw [hm2, getLast?_append_right _ _ htld_ne, hz]
  have hL : lstrip m = m := lstrip_eq_self m (by
    intro x hx
    rw [hhead] at hx
    injection hx with hx2
    subst hx2
    exact isLocal_not_space a ha_loc)
  have hR : rstrip m = m := rstrip_of_last m (by
    intro x hx
    rw [hlast] at hx
    injection hx with hx2
    subst hx2
    exact isAlpha_not_space z hz_alpha)
  have hstrip : pyStrip m = m := by
    unfold pyStrip
    rw [hL, hR]
  have h60 : (pyLower m).head? ≠ some 60 := by
    rw [pyLower, head?_map_own, hhead, Option.map_some']
    intro hx
    injection hx with hx2
    exact lowerCode_ne_of_local a ha_loc hx2
  have hcond : ¬((pyLower m).head? = some 60 ∧ (pyLower m).getLast? = some 62) :=
    fun hc => h60 hc.1
  have hcanon : canon_email m = pyLower m := by
    simp only [canon_email, hstrip]
    simp [hcond]
  refine ⟨hcanon, ?_, ?_⟩
  · rw [hm, hLoc]; simp
  · intro c hc
    rw [hcanon] at hc
    obtain ⟨c0, -, rfl⟩ := List.mem_map.mp hc
    exact lowerCode_not_upper c0

/-- Witness for C8 at a concrete scanned text. -/
theorem claim8_witness :
    (str2c ("A@B.CO") ∈ findEmails (str2c ("x A@B.CO y"))) ∧
    (canon_email (str2c ("A@B.CO")) = pyLower (str2c ("A@B.CO")) ∧
      str2c ("A@B.CO") ≠ [] ∧
      ∀ c ∈ canon_email (str2c ("A@B.CO")), ¬(65 ≤ c ∧ c ≤ 90)) :=
  ⟨by decide, claim8_theorem (str2c ("x A@B.CO y")) (str2c ("A@B.CO")) (by decide)⟩

end EmailIntel
